import Mathlib

/-!
Verification of the event-reducer and report-builder core of the
`pytest_prometheus` plugin (`src/pytest_prometheus/__init__.py`), as a
shallow embedding in Lean 4.

The embedding follows the source:
* `makeMetricName` embeds `PrometheusReport._make_metric_name`
  (a `re.sub` replacing every character outside `[a-zA-Z0-9_]` by `_`
  on the concatenation of the configured metric-name pre-string and the
  base name).
* `makeLabels` embeds `PrometheusReport._make_labels` (copy the extra
  labels, then set the reserved key `testname`).
* `pytest_runtest_logreport` embeds the hook of the same name.  The
  plugin state `self.test_results` is a Python dict mapping sanitized
  test name to `{'status': ..., 'phase': ...}`; we embed it as an
  insertion-ordered association list with unique keys (the semantics of
  a Python dict).  The body of the hook runs inside `try/except`; we
  embed the body as `recordEventCore`, returning `Except Unit State`,
  and the hook as the total function that returns the untouched state
  when the body faults.  The only faulting operation inside the body is
  `report.location[2]` (an `IndexError` when the location tuple is too
  short); `hasattr(report, 'location')` being false is embedded as
  `location = none` and is the silent no-op path of the source.
* `buildGroups` embeds the partitioning part of `pytest_sessionfinish`
  (the lists `total`, `passed`, `failed`, `skipped`).
* `buildGaugeSeries` / `buildReportSeries` embed the series-construction
  loops of `pytest_sessionfinish`; the external call
  `gauge.labels(**labels).inc()` of the prometheus client library is
  modelled as a fallible function parameter, and the inner
  `try/except` of the source keeps only the successful calls.
-/

namespace PytestPrometheus

/-- A character kept unchanged by the sanitizer: the class `[a-zA-Z0-9_]`
of the regex in `_make_metric_name`. -/
def isMetricChar (c : Char) : Bool :=
  ('a' ≤ c && c ≤ 'z') || ('A' ≤ c && c ≤ 'Z') || ('0' ≤ c && c ≤ '9') || c = '_'

/-- `re.sub(r'[^a-zA-Z0-9_]', '_', s)`: replace every character outside
`[a-zA-Z0-9_]` by `_`. -/
def reSub (s : String) : String :=
  String.mk (s.data.map (fun c => if isMetricChar c then c else '_'))

/-- `PrometheusReport._make_metric_name`: sanitize the concatenation of the
configured metric-name pre-string and the base name. -/
def makeMetricName (pfx : String) (name : String) : String :=
  reSub (pfx ++ name)

/-- First-match lookup in an association list: the embedding of reading a
Python dict entry (keys are unique in every state we build). -/
def lookup {α : Type} : List (String × α) → String → Option α
  | [], _ => none
  | (k, v) :: t, key => if k = key then some v else lookup t key

/-- `key in dict` for the embedded dict. -/
def containsKey {α : Type} (l : List (String × α)) (key : String) : Bool :=
  (lookup l key).isSome

/-- `dict[key] = value` on a Python dict: overwrite the entry if the key is
present, append it otherwise (insertion order preserved). -/
def dictSet {α : Type} (l : List (String × α)) (key : String) (v : α) :
    List (String × α) :=
  if containsKey l key then l.map (fun p => if p.1 = key then (p.1, v) else p)
  else l ++ [(key, v)]

/-- `PrometheusReport._make_labels`: copy the configured extra labels, then
set `labels["testname"] = testname`. -/
def makeLabels (extraLabels : List (String × String)) (testname : String) :
    List (String × String) :=
  dictSet extraLabels "testname" testname

/-- One entry of `self.test_results`: the dict
`{'status': None|str, 'phase': None}` created for each test.  The `phase`
key is written once at creation and never updated by the source. -/
structure TestRecord where
  status : Option String
  phase : Option String
deriving DecidableEq, Repr

/-- The plugin state `self.test_results`: sanitized test name to record,
in insertion order. -/
abbrev State : Type := List (String × TestRecord)

/-- A `pytest` `TestReport` as consumed by the hook: `location` is `none`
when `hasattr(report, 'location')` is false, and otherwise holds the
location tuple (the funcname is `location[2]`); `when` is the phase and
`outcome` the reported outcome. -/
structure Report where
  location : Option (List String)
  when : String
  outcome : String
deriving DecidableEq, Repr

/-- `self.test_results[name]['status'] = v`. -/
def setStatus (s : State) (key : String) (v : String) : State :=
  s.map (fun p => if p.1 = key then (p.1, { p.2 with status := some v }) else p)

/-- `if not name in self.test_results: self.test_results[name] =
{'status': None, 'phase': None}`. -/
def initRecord (s : State) (name : String) : State :=
  if containsKey s name then s
  else s ++ [(name, { status := none, phase := none })]

/-- The logic of `pytest_runtest_logreport` after the identity has been
resolved: create the record if missing, return early if the recorded status
is already `failed` or `passed`, and otherwise classify by phase and
outcome exactly as the source does. -/
def applyEvent (name w o : String) (s : State) : State :=
  match lookup (initRecord s name) name with
  | none => initRecord s name
  | some tr =>
    if tr.status = some "failed" ∨ tr.status = some "passed" then
      initRecord s name
    else if w = "call" then
      if o = "passed" then setStatus (initRecord s name) name "passed"
      else if o = "failed" then setStatus (initRecord s name) name "failed"
      else initRecord s name
    else if w = "setup" then
      if o = "skipped" then setStatus (initRecord s name) name "skipped"
      else if o = "failed" then setStatus (initRecord s name) name "failed"
      else initRecord s name
    else initRecord s name

/-- The body of `pytest_runtest_logreport` (the code inside the `try`):
no-op when the report has no `location` attribute, an `IndexError`
(`Except.error`) when the location tuple has no index 2, and otherwise the
create-record / terminal-guard / classify sequence of the source. -/
def recordEventCore (pfx : String) (r : Report) (s : State) :
    Except Unit State :=
  match r.location with
  | none => .ok s
  | some loc =>
    match loc[2]? with
    | none => .error ()
    | some funcname => .ok (applyEvent (makeMetricName pfx funcname) r.when r.outcome s)

/-- `PrometheusReport.pytest_runtest_logreport`: the body wrapped in the
`try/except Exception` of the source — a fault leaves the state untouched
and the hook returns normally. -/
def pytest_runtest_logreport (pfx : String) (r : Report) (s : State) : State :=
  match recordEventCore pfx r s with
  | .ok s1 => s1
  | .error _ => s

/-- Deliver a sequence of report events to the hook, in order. -/
def processEvents (pfx : String) (events : List Report) (s : State) : State :=
  events.foldl (fun st r => pytest_runtest_logreport pfx r st) s

/-- The identity the hook resolves for a report: the sanitized
`location[2]`, when the report has a location tuple of length at least 3. -/
def resolveIdentity (pfx : String) (r : Report) : Option String :=
  (r.location.bind (fun loc => loc[2]?)).map (makeMetricName pfx)

/-- The four category lists built by `pytest_sessionfinish` from
`self.test_results`. -/
structure Groups where
  total : List String
  passed : List String
  failed : List String
  skipped : List String
deriving DecidableEq, Repr

/-- The partitioning part of `pytest_sessionfinish`:
`total = list(self.test_results.keys())`, and one pass over the entries
appending each name to the list matching its status. -/
def buildGroups (s : State) : Groups :=
  { total := s.map Prod.fst
  , passed := (s.filter (fun p => p.2.status = some "passed")).map Prod.fst
  , failed := (s.filter (fun p => p.2.status = some "failed")).map Prod.fst
  , skipped := (s.filter (fun p => p.2.status = some "skipped")).map Prod.fst }

/-- The status `self.test_results` holds for a name, with `none` both for
an absent record and for a record whose status is still `None`. -/
def statusOf (s : State) (name : String) : Option String :=
  ((lookup s name).map TestRecord.status).getD none

/-- The status transition the reducer applies to the current status of the
resolved identity, for one event of phase `w` and outcome `o` (derived
characterization used by the proofs below). -/
def stepStatus (cur : Option String) (w o : String) : Option String :=
  if cur = some "failed" ∨ cur = some "passed" then cur
  else if w = "call" then
    if o = "passed" then some "passed"
    else if o = "failed" then some "failed"
    else cur
  else if w = "setup" then
    if o = "skipped" then some "skipped"
    else if o = "failed" then some "failed"
    else cur
  else cur

/-- The inner loop of `pytest_sessionfinish` for one gauge: for each test
of the group, build its label set and perform the external labeled
increment; the external call (modelled as the fallible `inc`) is wrapped
in `try/except`, so a faulting series is skipped and the successful ones
are kept in order. -/
def buildGaugeSeries {σ : Type} (extraLabels : List (String × String))
    (inc : List (String × String) → Except Unit σ) (tests : List String) :
    List σ :=
  tests.filterMap (fun t => (inc (makeLabels extraLabels t)).toOption)

/-- The outer loop of `pytest_sessionfinish` over the four metrics: each
metric name is paired with the series built for its group (`inc` receives
the metric name because each metric has its own gauge). -/
def buildReportSeries {σ : Type} (extraLabels : List (String × String))
    (inc : String → List (String × String) → Except Unit σ) (g : Groups) :
    List (String × List σ) :=
  [("total", g.total), ("passed", g.passed),
   ("failed", g.failed), ("skipped", g.skipped)].map
    (fun m => (m.1, buildGaugeSeries extraLabels (inc m.1) m.2))

/-! ### Association-list lemmas -/

theorem lookup_append {α : Type} (l1 l2 : List (String × α)) (key : String) :
    lookup (l1 ++ l2) key = ((lookup l1 key).orElse (fun _ => lookup l2 key)) := by
  induction l1 with
  | nil => simp [lookup]
  | cons p t ih =>
      by_cases h : p.1 = key
      · simp [lookup, h]
      · simpa [lookup, h] using ih

theorem lookup_map_adjust {α : Type} (f : α → α) (k key : String)
    (l : List (String × α)) :
    lookup (l.map (fun p => if p.1 = k then (p.1, f p.2) else p)) key =
      if key = k then (lookup l key).map f else lookup l key := by
  induction l with
  | nil => by_cases h : key = k <;> simp [lookup, h]
  | cons p t ih =>
      obtain ⟨a, b⟩ := p
      simp only [List.map_cons]
      by_cases hp : a = k
      · subst hp
        rw [if_pos rfl]
        by_cases hk : a = key
        · subst hk
          simp [lookup]
        · have hkk : ¬key = a := fun h => hk h.symm
          simp [lookup, hk, hkk, ih]
      · rw [if_neg hp]
        by_cases hk : a = key
        · subst hk
          simp [lookup, hp]
        · simp [lookup, hp, hk, ih]

theorem lookup_setStatus (s : State) (k v key : String) :
    lookup (setStatus s k v) key =
      if key = k then (lookup s key).map (fun tr => { tr with status := some v })
      else lookup s key := by
  unfold setStatus
  exact lookup_map_adjust (fun tr => { tr with status := some v }) k key s

theorem mem_keys_iff {α : Type} (l : List (String × α)) (key : String) :
    key ∈ l.map Prod.fst ↔ (lookup l key).isSome := by
  induction l with
  | nil => simp [lookup]
  | cons p t ih =>
      obtain ⟨a, b⟩ := p
      by_cases h : a = key
      · simp [lookup, h]
      · have h2 : ¬key = a := fun hh => h hh.symm
        simp [lookup, h, h2, ih]

theorem keys_setStatus (s : State) (k v : String) :
    (setStatus s k v).map Prod.fst = s.map Prod.fst := by
  induction s with
  | nil => rfl
  | cons p t ih =>
      obtain ⟨a, b⟩ := p
      simp only [setStatus, List.map_cons] at ih ⊢
      by_cases h : a = k <;> simp [h, ih]

theorem lookup_dictSet_self {α : Type} (l : List (String × α)) (k : String)
    (v : α) : lookup (dictSet l k v) k = some v := by
  unfold dictSet
  by_cases h : containsKey l k
  · rw [if_pos h]
    have hadj := lookup_map_adjust (fun _ => v) k k l
    rw [if_pos rfl] at hadj
    rw [hadj]
    unfold containsKey at h
    rcases Option.isSome_iff_exists.mp h with ⟨w, hw⟩
    simp [hw]
  · rw [if_neg h]
    unfold containsKey at h
    rw [lookup_append]
    have hn : lookup l k = none := Option.not_isSome_iff_eq_none.mp h
    simp [hn, lookup]

/-! ### Lemmas about record creation and the per-event transition -/

theorem lookup_initRecord_self (s : State) (name : String) :
    lookup (initRecord s name) name =
      some ((lookup s name).getD { status := none, phase := none }) := by
  unfold initRecord containsKey
  cases h : lookup s name with
  | none => simp [h, lookup_append, lookup]
  | some tr => simp [h]

theorem lookup_initRecord_ne (s : State) (name key : String) (h : key ≠ name) :
    lookup (initRecord s name) key = lookup s key := by
  unfold initRecord containsKey
  cases hl : lookup s name with
  | none =>
      simp only [hl, Option.isSome_none, Bool.false_eq_true, if_false]
      rw [lookup_append]
      cases hk : lookup s key with
      | none => simp [lookup, Ne.symm h]
      | some tr => simp
  | some tr => simp [hl]

theorem statusOf_initRecord_self (s : State) (name : String) :
    statusOf (initRecord s name) name = statusOf s name := by
  rw [statusOf, lookup_initRecord_self]
  cases h : lookup s name with
  | none => simp [statusOf, h]
  | some tr => simp [statusOf, h]

theorem keys_initRecord (s : State) (name : String) :
    (initRecord s name).map Prod.fst =
      if containsKey s name then s.map Prod.fst
      else s.map Prod.fst ++ [name] := by
  unfold initRecord
  by_cases h : containsKey s name <;> simp [h]

theorem keys_applyEvent (name w o : String) (s : State) :
    (applyEvent name w o s).map Prod.fst = (initRecord s name).map Prod.fst := by
  unfold applyEvent
  cases h : lookup (initRecord s name) name with
  | none => rfl
  | some tr =>
      split_ifs <;>
        simp [keys_setStatus,
          apply_ite (List.map (Prod.fst : String × TestRecord → String))]

theorem statusOf_applyEvent_self (name w o : String) (s : State) :
    statusOf (applyEvent name w o s) name = stepStatus (statusOf s name) w o := by
  have hinit := lookup_initRecord_self s name
  set tr := (lookup s name).getD { status := none, phase := none } with htr
  have hcur : tr.status = statusOf s name := by
    cases h : lookup s name with
    | none => simp [htr, statusOf, h]
    | some tr2 => simp [htr, statusOf, h]
  have hss : ∀ v, statusOf (setStatus (initRecord s name) name v) name = some v := by
    intro v
    simp [statusOf, lookup_setStatus, hinit]
  unfold applyEvent
  rw [hinit]
  show statusOf
      (if tr.status = some "failed" ∨ tr.status = some "passed" then
        initRecord s name
      else if w = "call" then
        if o = "passed" then setStatus (initRecord s name) name "passed"
        else if o = "failed" then setStatus (initRecord s name) name "failed"
        else initRecord s name
      else if w = "setup" then
        if o = "skipped" then setStatus (initRecord s name) name "skipped"
        else if o = "failed" then setStatus (initRecord s name) name "failed"
        else initRecord s name
      else initRecord s name) name = stepStatus (statusOf s name) w o
  rw [← hcur]
  unfold stepStatus
  split_ifs <;> simp [statusOf_initRecord_self, hss, hcur]

theorem statusOf_applyEvent_ne (name w o key : String) (s : State)
    (h : key ≠ name) :
    statusOf (applyEvent name w o s) key = statusOf s key := by
  have hne := lookup_initRecord_ne s name key h
  unfold applyEvent
  cases hl : lookup (initRecord s name) name with
  | none => simp [statusOf, hne]
  | some tr =>
      have hset : ∀ v, lookup (setStatus (initRecord s name) name v) key
          = lookup s key := by
        intro v
        rw [lookup_setStatus]
        simp [h, hne]
      unfold statusOf
      split_ifs <;>
        simp [apply_ite (fun st : State => lookup st key), hset, hne]

/-! ### Lemmas about the hook and event traces -/

theorem logreport_eq (pfx : String) (r : Report) (s : State) :
    pytest_runtest_logreport pfx r s =
      match resolveIdentity pfx r with
      | none => s
      | some n => applyEvent n r.when r.outcome s := by
  unfold pytest_runtest_logreport recordEventCore resolveIdentity
  cases hl : r.location with
  | none => simp
  | some loc =>
      cases hg : loc[2]? with
      | none => simp [hg]
      | some f => simp [hg]

theorem statusOf_logreport_of_terminal (pfx : String) (r : Report) (s : State)
    (name : String)
    (h : statusOf s name = some "passed" ∨ statusOf s name = some "failed") :
    statusOf (pytest_runtest_logreport pfx r s) name = statusOf s name := by
  rw [logreport_eq]
  cases hr : resolveIdentity pfx r with
  | none => rfl
  | some n =>
      by_cases hn : name = n
      · subst hn
        rw [statusOf_applyEvent_self]
        unfold stepStatus
        rcases h with h | h <;> simp [h]
      · exact statusOf_applyEvent_ne n r.when r.outcome name s hn

theorem mem_keys_logreport (pfx : String) (r : Report) (s : State)
    (key : String) :
    key ∈ (pytest_runtest_logreport pfx r s).map Prod.fst ↔
      key ∈ s.map Prod.fst ∨ resolveIdentity pfx r = some key := by
  rw [logreport_eq]
  cases hr : resolveIdentity pfx r with
  | none => simp
  | some n =>
      rw [keys_applyEvent, keys_initRecord]
      by_cases hc : containsKey s n
      · rw [if_pos hc]
        have hmem : n ∈ s.map Prod.fst := (mem_keys_iff s n).mpr hc
        constructor
        · exact fun hk => Or.inl hk
        · rintro (hk | hk)
          · exact hk
          · rcases Option.some_injective _ hk with rfl
            exact hmem
      · rw [if_neg hc]
        simp only [List.mem_append, List.mem_singleton, Option.some_inj]
        constructor
        · rintro (hk | hk)
          · exact Or.inl hk
          · exact Or.inr hk.symm
        · rintro (hk | hk)
          · exact Or.inl hk
          · exact Or.inr hk.symm

theorem keys_nodup_logreport (pfx : String) (r : Report) (s : State)
    (h : (s.map Prod.fst).Nodup) :
    ((pytest_runtest_logreport pfx r s).map Prod.fst).Nodup := by
  rw [logreport_eq]
  cases hr : resolveIdentity pfx r with
  | none => exact h
  | some n =>
      rw [keys_applyEvent, keys_initRecord]
      by_cases hc : containsKey s n
      · rw [if_pos hc]
        exact h
      · rw [if_neg hc]
        have hnm : n ∉ s.map Prod.fst := by
          intro hmem
          exact hc ((mem_keys_iff s n).mp hmem)
        simp [List.nodup_append, h, hnm]

theorem mem_keys_processEvents (pfx : String) (events : List Report) :
    ∀ (s : State) (key : String),
      key ∈ (processEvents pfx events s).map Prod.fst ↔
        key ∈ s.map Prod.fst ∨ ∃ r ∈ events, resolveIdentity pfx r = some key := by
  induction events with
  | nil => simp [processEvents]
  | cons r t ih =>
      intro s key
      have hstep := mem_keys_logreport pfx r s key
      have hrest := ih (pytest_runtest_logreport pfx r s) key
      unfold processEvents at hrest ⊢
      rw [List.foldl_cons]
      rw [hrest, hstep]
      constructor
      · rintro ((hk | hk) | ⟨r2, hr2, hres⟩)
        · exact Or.inl hk
        · exact Or.inr ⟨r, List.mem_cons_self r t, hk⟩
        · exact Or.inr ⟨r2, List.mem_cons_of_mem r hr2, hres⟩
      · rintro (hk | ⟨r2, hr2, hres⟩)
        · exact Or.inl (Or.inl hk)
        · rcases List.mem_cons.mp hr2 with rfl | hr2
          · exact Or.inl (Or.inr hres)
          · exact Or.inr ⟨r2, hr2, hres⟩

theorem keys_nodup_processEvents (pfx : String) (events : List Report) :
    ∀ (s : State), (s.map Prod.fst).Nodup →
      ((processEvents pfx events s).map Prod.fst).Nodup := by
  induction events with
  | nil => exact fun s h => h
  | cons r t ih =>
      intro s h
      unfold processEvents
      rw [List.foldl_cons]
      exact ih (pytest_runtest_logreport pfx r s) (keys_nodup_logreport pfx r s h)

theorem statusOf_processEvents_of_terminal (pfx : String) (events : List Report) :
    ∀ (s : State) (name : String),
      (statusOf s name = some "passed" ∨ statusOf s name = some "failed") →
      statusOf (processEvents pfx events s) name = statusOf s name := by
  induction events with
  | nil => exact fun s name _ => rfl
  | cons r t ih =>
      intro s name h
      unfold processEvents
      rw [List.foldl_cons]
      have hstep := statusOf_logreport_of_terminal pfx r s name h
      have hterm : statusOf (pytest_runtest_logreport pfx r s) name = some "passed"
          ∨ statusOf (pytest_runtest_logreport pfx r s) name = some "failed" := by
        rw [hstep]
        exact h
      have := ih (pytest_runtest_logreport pfx r s) name hterm
      unfold processEvents at this
      rw [this, hstep]

/-! ### Lemmas connecting lookup, membership and the report groups -/

theorem mem_of_lookup_eq_some {α : Type} {l : List (String × α)} {key : String}
    {v : α} (h : lookup l key = some v) : (key, v) ∈ l := by
  induction l with
  | nil => simp [lookup] at h
  | cons p t ih =>
      obtain ⟨a, b⟩ := p
      by_cases ha : a = key
      · subst ha
        simp [lookup] at h
        subst h
        exact List.mem_cons_self _ _
      · simp [lookup, ha] at h
        exact List.mem_cons_of_mem _ (ih h)

theorem lookup_eq_some_of_mem {α : Type} {l : List (String × α)}
    (hnd : (l.map Prod.fst).Nodup) {key : String} {v : α}
    (h : (key, v) ∈ l) : lookup l key = some v := by
  induction l with
  | nil => simp at h
  | cons p t ih =>
      obtain ⟨a, b⟩ := p
      rw [List.map_cons, List.nodup_cons] at hnd
      rcases List.mem_cons.mp h with heq | hmem
      · rw [Prod.mk.injEq] at heq
        obtain ⟨rfl, rfl⟩ := heq
        simp [lookup]
      · have hk : key ∈ t.map Prod.fst := List.mem_map.mpr ⟨(key, v), hmem, rfl⟩
        have hne : ¬a = key := fun hh => hnd.1 (hh ▸ hk)
        simp only [lookup, if_neg hne]
        exact ih hnd.2 hmem

theorem mem_group_iff_statusOf (s : State) (hnd : (s.map Prod.fst).Nodup)
    (v name : String) :
    name ∈ (s.filter (fun p => p.2.status = some v)).map Prod.fst ↔
      statusOf s name = some v := by
  constructor
  · intro h
    rcases List.mem_map.mp h with ⟨p, hp, hfst⟩
    obtain ⟨a, b⟩ := p
    rcases List.mem_filter.mp hp with ⟨hmem, hstat⟩
    have hbv : b.status = some v := of_decide_eq_true hstat
    subst hfst
    rw [statusOf, lookup_eq_some_of_mem hnd hmem]
    simp [hbv]
  · intro h
    cases hl : lookup s name with
    | none => rw [statusOf, hl] at h; simp at h
    | some tr =>
        have htr : tr.status = some v := by
          rw [statusOf, hl] at h
          simpa using h
        exact List.mem_map.mpr
          ⟨(name, tr), List.mem_filter.mpr ⟨mem_of_lookup_eq_some hl, by simp [htr]⟩, rfl⟩

/-! ### Claim theorems -/

/-- C1: for every sequence of events delivered to `pytest_runtest_logreport`,
once an identity's record holds status `passed` or `failed`, no subsequent
event changes the record's status, regardless of the later event's phase or
outcome. -/
theorem claim1_terminal_status_stable (pfx : String) (events : List Report)
    (s : State) (name : String)
    (h : statusOf s name = some "passed" ∨ statusOf s name = some "failed") :
    statusOf (processEvents pfx events s) name = statusOf s name :=
  statusOf_processEvents_of_terminal pfx events s name h

/-- Witness for C1: a recorded `passed` survives a later teardown failure
and a later call failure. -/
theorem claim1_terminal_status_stable_witness :
    statusOf (processEvents ""
      [{ location := some ["m", "0", "t1"], when := "teardown", outcome := "failed" },
       { location := some ["m", "0", "t1"], when := "call", outcome := "failed" }]
      [("t1", { status := some "passed", phase := none })]) "t1"
      = statusOf [("t1", { status := some "passed", phase := none })] "t1" :=
  claim1_terminal_status_stable "" _ _ "t1" (Or.inl (by decide))

/-- C2 counterexample: a call-phase event with outcome `error` delivered for
a fresh identity does NOT set the record's status to `failed` — the
reducer's call branch matches only the literal outcomes `passed` and
`failed`, so the record keeps status `None`. -/
theorem claim2_call_error_counterexample :
    statusOf (pytest_runtest_logreport ""
      { location := some ["m", "0", "t1"], when := "call", outcome := "error" } []) "t1"
      = none
    ∧ (none : Option String) ≠ some "failed" := by
  constructor
  · decide
  · decide

/-- C2 (amended): a call-phase event with outcome `error` is ignored by the
reducer: it changes no identity's status (it is not classified as
`failed`). -/
theorem claim2_call_error_ignored (pfx : String) (r : Report) (s : State)
    (hw : r.when = "call") (ho : r.outcome = "error") (name : String) :
    statusOf (pytest_runtest_logreport pfx r s) name = statusOf s name := by
  have hstep : ∀ cur : Option String, stepStatus cur "call" "error" = cur := by
    intro cur
    unfold stepStatus
    simp
  rw [logreport_eq]
  cases hr : resolveIdentity pfx r with
  | none => rfl
  | some n =>
      by_cases hn : name = n
      · subst hn
        show statusOf (applyEvent name r.when r.outcome s) name = statusOf s name
        rw [statusOf_applyEvent_self, hw, ho, hstep]
      · exact statusOf_applyEvent_ne n r.when r.outcome name s hn

/-- Witness for C2 (amended): a call-phase `error` event leaves a recorded
`skipped` status unchanged. -/
theorem claim2_call_error_ignored_witness :
    statusOf (pytest_runtest_logreport ""
      { location := some ["m", "0", "t2"], when := "call", outcome := "error" }
      [("t2", { status := some "skipped", phase := none })]) "t2"
      = statusOf [("t2", { status := some "skipped", phase := none })] "t2" :=
  claim2_call_error_ignored "" _ _ rfl rfl "t2"

/-- C3: a `skipped` status is not terminal: for an identity whose recorded
status is neither `passed` nor `failed`, `setup:skipped` followed by
`call:passed` leaves the identity's final status equal to `passed`. -/
theorem claim3_skip_then_pass (pfx : String) (loc : List String) (f : String)
    (s : State) (hf : loc[2]? = some f)
    (h1 : statusOf s (makeMetricName pfx f) ≠ some "passed")
    (h2 : statusOf s (makeMetricName pfx f) ≠ some "failed") :
    statusOf (processEvents pfx
      [{ location := some loc, when := "setup", outcome := "skipped" },
       { location := some loc, when := "call", outcome := "passed" }] s)
      (makeMetricName pfx f) = some "passed" := by
  set n := makeMetricName pfx f with hn
  have hres : ∀ w o, resolveIdentity pfx { location := some loc, when := w, outcome := o }
      = some n := by
    intro w o
    simp [resolveIdentity, hf, hn]
  have step1 : statusOf (pytest_runtest_logreport pfx
      { location := some loc, when := "setup", outcome := "skipped" } s) n
      = some "skipped" := by
    rw [logreport_eq, hres]
    show statusOf (applyEvent n "setup" "skipped" s) n = some "skipped"
    rw [statusOf_applyEvent_self]
    unfold stepStatus
    simp [h1, h2]
  unfold processEvents
  simp only [List.foldl_cons, List.foldl_nil]
  rw [logreport_eq, hres]
  show statusOf (applyEvent n "call" "passed"
      (pytest_runtest_logreport pfx
        { location := some loc, when := "setup", outcome := "skipped" } s)) n
      = some "passed"
  rw [statusOf_applyEvent_self, step1]
  unfold stepStatus
  simp

/-- Witness for C3: from the empty state, `setup:skipped` then `call:passed`
for the same test ends with status `passed`. -/
theorem claim3_skip_then_pass_witness :
    statusOf (processEvents ""
      [{ location := some ["m", "0", "t3"], when := "setup", outcome := "skipped" },
       { location := some ["m", "0", "t3"], when := "call", outcome := "passed" }] [])
      (makeMetricName "" "t3") = some "passed" :=
  claim3_skip_then_pass "" ["m", "0", "t3"] "t3" [] rfl (by decide) (by decide)

/-- C4: metric-name construction replaces every character outside
`[A-Za-z0-9_]` of the concatenated pre-string and base name with `_`:
the example from the spec evaluates to `my_metric_total`, every character
of any output is in the allowed class, and no character is dropped (the
function is total and deterministic by construction). -/
theorem claim4_metric_name_sanitization :
    makeMetricName "my.metric-" "total" = "my_metric_total" ∧
    (∀ p n : String, ∀ c ∈ (makeMetricName p n).data, isMetricChar c = true) ∧
    (∀ p n : String, (makeMetricName p n).length = (p ++ n).length) := by
  refine ⟨by decide, ?_, ?_⟩
  · intro p n c hc
    unfold makeMetricName reSub at hc
    rcases List.mem_map.mp hc with ⟨c0, _, hc0⟩
    by_cases h0 : isMetricChar c0
    · rw [if_pos h0] at hc0
      rw [← hc0]
      exact h0
    · rw [if_neg h0] at hc0
      rw [← hc0]
      decide
  · intro p n
    show ((p ++ n).data.map (fun c => if isMetricChar c then c else '_')).length
        = (p ++ n).data.length
    exact List.length_map _ _

/-- Witness for C4: the character `m` of the sanitized example output is in
the allowed class. -/
theorem claim4_metric_name_sanitization_witness : isMetricChar 'm' = true :=
  claim4_metric_name_sanitization.2.1 "my.metric-" "total" 'm' (by decide)

/-- C5: the hook never propagates a fault: when the body
(`recordEventCore`) faults the state is returned untouched, when it
succeeds its result is returned, and the only fault is an `IndexError`
from `report.location[2]` on a location tuple with no index 2. -/
theorem claim5_never_raises (pfx : String) (r : Report) (s : State) :
    (∀ e : Unit, recordEventCore pfx r s = .error e →
        pytest_runtest_logreport pfx r s = s) ∧
    (∀ s1 : State, recordEventCore pfx r s = .ok s1 →
        pytest_runtest_logreport pfx r s = s1) ∧
    (recordEventCore pfx r s = .error () ↔
        ∃ loc, r.location = some loc ∧ loc[2]? = none) := by
  refine ⟨?_, ?_, ?_⟩
  · intro e he
    unfold pytest_runtest_logreport
    rw [he]
  · intro s1 hs
    unfold pytest_runtest_logreport
    rw [hs]
  · unfold recordEventCore
    cases hl : r.location with
    | none =>
        constructor
        · intro h0
          exact Except.noConfusion h0
        · rintro ⟨loc2, hloc2, _⟩
          exact Option.noConfusion hloc2
    | some loc =>
        show (match loc[2]? with
              | none => Except.error ()
              | some funcname =>
                  Except.ok (applyEvent (makeMetricName pfx funcname) r.when r.outcome s))
            = Except.error () ↔ ∃ loc2, some loc = some loc2 ∧ loc2[2]? = none
        cases hg : loc[2]? with
        | none =>
            constructor
            · intro _
              exact ⟨loc, rfl, hg⟩
            · intro _
              rfl
        | some f =>
            constructor
            · intro h0
              exact Except.noConfusion h0
            · rintro ⟨loc2, hloc2, hget⟩
              obtain rfl : loc = loc2 := Option.some.inj hloc2
              rw [hg] at hget
              exact Option.noConfusion hget

/-- Witness for C5: a report whose location tuple is too short faults
inside the body, and the hook returns the state unchanged. -/
theorem claim5_never_raises_witness :
    pytest_runtest_logreport "p"
      { location := some ["only"], when := "call", outcome := "passed" } [] = [] :=
  (claim5_never_raises "p"
    { location := some ["only"], when := "call", outcome := "passed" } []).1 () rfl

/-- C6: an event with no resolvable identity (a report without a
`location`) is a silent no-op: the hook returns and the whole
`test_results` mapping — including the set of created records — is
unchanged. -/
theorem claim6_no_location_noop (pfx : String) (r : Report) (s : State)
    (h : r.location = none) : pytest_runtest_logreport pfx r s = s := by
  unfold pytest_runtest_logreport recordEventCore
  rw [h]

/-- Witness for C6: a location-less report leaves a one-record state
exactly as it was. -/
theorem claim6_no_location_noop_witness :
    pytest_runtest_logreport ""
      { location := none, when := "call", outcome := "passed" }
      [("a", { status := none, phase := none })]
      = [("a", { status := none, phase := none })] :=
  claim6_no_location_noop "" { location := none, when := "call", outcome := "passed" }
    [("a", { status := none, phase := none })] rfl

/-- C7: at finalization the `total` group holds exactly the identities for
which any event was recorded (including records whose status is still
`None`), its cardinality is the number of distinct identities ever seen,
and `passed`, `failed`, `skipped` hold exactly the identities whose final
status matches that value. -/
theorem claim7_report_groups (pfx : String) (events : List Report) :
    (∀ name, name ∈ (buildGroups (processEvents pfx events [])).total ↔
        ∃ r ∈ events, resolveIdentity pfx r = some name) ∧
    (buildGroups (processEvents pfx events [])).total.length =
      ((events.filterMap (resolveIdentity pfx)).dedup).length ∧
    (∀ name, name ∈ (buildGroups (processEvents pfx events [])).passed ↔
        statusOf (processEvents pfx events []) name = some "passed") ∧
    (∀ name, name ∈ (buildGroups (processEvents pfx events [])).failed ↔
        statusOf (processEvents pfx events []) name = some "failed") ∧
    (∀ name, name ∈ (buildGroups (processEvents pfx events [])).skipped ↔
        statusOf (processEvents pfx events []) name = some "skipped") := by
  have hnd : ((processEvents pfx events []).map Prod.fst).Nodup :=
    keys_nodup_processEvents pfx events [] (by simp)
  have htot : ∀ name, name ∈ (buildGroups (processEvents pfx events [])).total ↔
      ∃ r ∈ events, resolveIdentity pfx r = some name := by
    intro name
    have h := mem_keys_processEvents pfx events [] name
    simp only [List.map_nil, List.not_mem_nil, false_or] at h
    exact h
  refine ⟨htot, ?_,
    fun name => mem_group_iff_statusOf _ hnd "passed" name,
    fun name => mem_group_iff_statusOf _ hnd "failed" name,
    fun name => mem_group_iff_statusOf _ hnd "skipped" name⟩
  have h1 : (buildGroups (processEvents pfx events [])).total.Nodup := hnd
  have hmemeq : ∀ name, name ∈ (buildGroups (processEvents pfx events [])).total ↔
      name ∈ events.filterMap (resolveIdentity pfx) := by
    intro name
    rw [htot name, List.mem_filterMap]
  have hfin : (buildGroups (processEvents pfx events [])).total.toFinset =
      (events.filterMap (resolveIdentity pfx)).toFinset := by
    apply Finset.ext
    intro a
    simp only [List.mem_toFinset]
    exact hmemeq a
  calc (buildGroups (processEvents pfx events [])).total.length
      = (buildGroups (processEvents pfx events [])).total.toFinset.card :=
        (List.toFinset_card_of_nodup h1).symm
    _ = (events.filterMap (resolveIdentity pfx)).toFinset.card := by rw [hfin]
    _ = (events.filterMap (resolveIdentity pfx)).dedup.length := List.card_toFinset _

/-- C8: the label set built for a series always maps the reserved key
`testname` to the test identity, whatever the user-supplied extra labels
are — a user-supplied `testname` entry is overwritten because the
reserved key is written after the copy of the user labels. -/
theorem claim8_testname_reserved (extraLabels : List (String × String))
    (testname : String) :
    lookup (makeLabels extraLabels testname) "testname" = some testname :=
  lookup_dictSet_self extraLabels "testname" testname

/-- C9: a fault while building the labeled series of one test is skipped
without aborting the rest: any test whose external increment succeeds has
its series in the output regardless of how the increment behaves on the
other tests, and all four metric groups are always built. -/
theorem claim9_series_fault_isolated {σ : Type}
    (extraLabels : List (String × String))
    (inc : String → List (String × String) → Except Unit σ) (g : Groups) :
    (∀ (incg : List (String × String) → Except Unit σ) (tests : List String)
        (t : String) (ser : σ), t ∈ tests →
        incg (makeLabels extraLabels t) = .ok ser →
        ser ∈ buildGaugeSeries extraLabels incg tests) ∧
    buildReportSeries extraLabels inc g =
      [("total", buildGaugeSeries extraLabels (inc "total") g.total),
       ("passed", buildGaugeSeries extraLabels (inc "passed") g.passed),
       ("failed", buildGaugeSeries extraLabels (inc "failed") g.failed),
       ("skipped", buildGaugeSeries extraLabels (inc "skipped") g.skipped)] := by
  constructor
  · intro incg tests t ser ht hok
    unfold buildGaugeSeries
    refine List.mem_filterMap.mpr ⟨t, ht, ?_⟩
    rw [hok]
    rfl
  · rfl

/-- Witness for C9: with an increment that faults on the series of test
`bad`, the series of test `good` in the same group is still built. -/
theorem claim9_series_fault_isolated_witness :
    (7 : Nat) ∈ buildGaugeSeries []
      (fun labels => if lookup labels "testname" = some "bad" then .error ()
        else .ok 7)
      ["bad", "good"] :=
  (claim9_series_fault_isolated []
    (fun _ labels => if lookup labels "testname" = some "bad" then .error ()
      else .ok (7 : Nat))
    { total := [], passed := [], failed := [], skipped := [] }).1
    (fun labels => if lookup labels "testname" = some "bad" then .error ()
      else .ok 7)
    ["bad", "good"] "good" 7 (by decide) rfl

/-- C10: sanitization of raw test names is not injective, and two distinct
raw names with the same sanitized form share one TestRecord: after events
for both, the `total` group has that single sanitized identity as its only
member. -/
theorem claim10_sanitization_collision (pfx : String) (r1 r2 : Report)
    (loc1 loc2 : List String) (f1 f2 : String)
    (h1 : r1.location = some loc1) (h2 : loc1[2]? = some f1)
    (h3 : r2.location = some loc2) (h4 : loc2[2]? = some f2)
    (hne : f1 ≠ f2) (hcol : makeMetricName pfx f1 = makeMetricName pfx f2) :
    (buildGroups (processEvents pfx [r1, r2] [])).total
      = [makeMetricName pfx f1] := by
  have hres1 : resolveIdentity pfx r1 = some (makeMetricName pfx f1) := by
    simp [resolveIdentity, h1, h2]
  have hres2 : resolveIdentity pfx r2 = some (makeMetricName pfx f1) := by
    simp [resolveIdentity, h3, h4, hcol]
  have k1 : (pytest_runtest_logreport pfx r1 []).map Prod.fst
      = [makeMetricName pfx f1] := by
    rw [logreport_eq, hres1]
    show (applyEvent (makeMetricName pfx f1) r1.when r1.outcome []).map Prod.fst
        = [makeMetricName pfx f1]
    rw [keys_applyEvent, keys_initRecord]
    simp [containsKey, lookup]
  have hck : containsKey (pytest_runtest_logreport pfx r1 [])
      (makeMetricName pfx f1) = true := by
    apply (mem_keys_iff _ _).mp
    rw [k1]
    exact List.mem_singleton.mpr rfl
  have k2 : (pytest_runtest_logreport pfx r2
      (pytest_runtest_logreport pfx r1 [])).map Prod.fst
      = [makeMetricName pfx f1] := by
    rw [logreport_eq, hres2]
    show (applyEvent (makeMetricName pfx f1) r2.when r2.outcome
        (pytest_runtest_logreport pfx r1 [])).map Prod.fst
        = [makeMetricName pfx f1]
    rw [keys_applyEvent, keys_initRecord, if_pos hck, k1]
  show (processEvents pfx [r1, r2] []).map Prod.fst = [makeMetricName pfx f1]
  unfold processEvents
  simp only [List.foldl_cons, List.foldl_nil]
  exact k2

/-- Witness for C10: the distinct raw names `a.b` and `a-b` both sanitize
to `a_b`, and after one event for each the `total` group has exactly one
member. -/
theorem claim10_sanitization_collision_witness :
    (buildGroups (processEvents ""
      [{ location := some ["m", "0", "a.b"], when := "call", outcome := "passed" },
       { location := some ["m", "0", "a-b"], when := "call", outcome := "failed" }]
      [])).total = [makeMetricName "" "a.b"] :=
  claim10_sanitization_collision "" _ _ ["m", "0", "a.b"] ["m", "0", "a-b"]
    "a.b" "a-b" rfl rfl rfl rfl (by decide) (by decide)

end PytestPrometheus
